import Mathlib

/-!
Verification of the RSN information element codec (src/rsn_information.cpp).

The codec is embedded shallowly: bytes are natural numbers below 256, byte
buffers are lists, a 16/32-bit machine integer is a natural number reduced
modulo its width where the code truncates.  The host's byte order is made
explicit through a boolean parameter `hLE` (true on a little-endian host):
the `Endian` helpers of the source are the identity exactly when `hLE` is
true and the byte swap otherwise, which lets the storage convention of the
entity (which fields are kept pre-converted to little-endian) be stated and
proved rather than disappear into identities.
-/

set_option maxHeartbeats 1000000

/-- Error kinds of the codec, mirroring exceptions.h: `malformed_packet` is
thrown while parsing, `malformed_option` by the option factory. -/
inductive ParseError where
  | malformed_packet : ParseError
  | malformed_option : ParseError
  deriving DecidableEq, Repr

instance {ε α : Type} [DecidableEq ε] [DecidableEq α] :
    DecidableEq (Except ε α) := fun a b =>
  match a, b with
  | .error e, .error f =>
    if h : e = f then .isTrue (by rw [h]) else .isFalse (by simp [h])
  | .ok x, .ok y =>
    if h : x = y then .isTrue (by rw [h]) else .isFalse (by simp [h])
  | .error _, .ok _ => .isFalse (by simp)
  | .ok _, .error _ => .isFalse (by simp)

/-- Byte swap of a 16-bit value (truncates to 16 bits). -/
def bswap16 (x : Nat) : Nat := x % 256 * 256 + x / 256 % 256

/-- Byte swap of a 32-bit value (truncates to 32 bits). -/
def bswap32 (x : Nat) : Nat :=
  x % 256 * 16777216 + x / 256 % 256 * 65536 + x / 65536 % 256 * 256 + x / 16777216 % 256

/-- Modelled from the spec: `Endian::host_to_le<uint16_t>` (endianness helpers,
not under src/).  Identity (up to the 16-bit truncation the C cast performs)
on a little-endian host, byte swap on a big-endian one. -/
def host_to_le16 (hLE : Bool) (x : Nat) : Nat :=
  if hLE then x % 65536 else bswap16 x

/-- Modelled from the spec: `Endian::host_to_le<uint32_t>`. -/
def host_to_le32 (hLE : Bool) (x : Nat) : Nat :=
  if hLE then x % 4294967296 else bswap32 x

/-- Modelled from the spec: `Endian::le_to_host` on 16-bit values; the same
conversion as `host_to_le16` (swap iff the host is big-endian). -/
def le_to_host16 (hLE : Bool) (x : Nat) : Nat := host_to_le16 hLE x

/-- Modelled from the spec: `Endian::le_to_host` on 32-bit values. -/
def le_to_host32 (hLE : Bool) (x : Nat) : Nat := host_to_le32 hLE x

/-- The two bytes of a 16-bit value in little-endian order. -/
def leBytes16 (x : Nat) : List Nat := [x % 256, x / 256 % 256]

/-- The four bytes of a 32-bit value in little-endian order. -/
def leBytes32 (x : Nat) : List Nat :=
  [x % 256, x / 256 % 256, x / 65536 % 256, x / 16777216 % 256]

/-- The in-memory bytes of a 16-bit value on a host with byte order `hLE`;
this is what `memcpy` from a `uint16_t` object produces. -/
def hostBytes16 (hLE : Bool) (x : Nat) : List Nat :=
  if hLE then leBytes16 x else [x / 256 % 256, x % 256]

/-- The in-memory bytes of a 32-bit value on a host with byte order `hLE`. -/
def hostBytes32 (hLE : Bool) (x : Nat) : List Nat :=
  if hLE then leBytes32 x else [x / 16777216 % 256, x / 65536 % 256, x / 256 % 256, x % 256]

/-- Assembling two consecutive memory bytes into a host 16-bit integer, as
`memcpy` into a `uint16_t` object does. -/
def asm16 (hLE : Bool) (b0 b1 : Nat) : Nat :=
  if hLE then b0 + 256 * b1 else 256 * b0 + b1

/-- Assembling four consecutive memory bytes into a host 32-bit integer. -/
def asm32 (hLE : Bool) (b0 b1 b2 b3 : Nat) : Nat :=
  if hLE then b0 + 256 * b1 + 65536 * b2 + 16777216 * b3
  else 16777216 * b0 + 65536 * b1 + 256 * b2 + b3

/-- Modelled from the spec: the byte-stream reader collaborator
(`InputMemoryStream`, memory_helpers.h, not under src/): a sequential cursor
over the remaining bytes of a buffer, exposing a can-read check; reading a
fixed-width integer consumes its bytes (assembled in host order) and fails
with `malformed_packet` when fewer bytes remain. -/
structure InputMemoryStream where
  data : List Nat
  deriving DecidableEq, Repr

/-- `stream.can_read(n)`: whether `n` more bytes remain. -/
def InputMemoryStream.can_read (s : InputMemoryStream) (n : Nat) : Bool :=
  decide (n ≤ s.data.length)

/-- `stream.read<uint16_t>()`: consume two bytes, assembled in host order;
`malformed_packet` when fewer than two bytes remain. -/
def read_u16 (hLE : Bool) (s : InputMemoryStream) :
    Except ParseError (Nat × InputMemoryStream) :=
  match s.data with
  | b0 :: b1 :: rest => .ok (asm16 hLE b0 b1, ⟨rest⟩)
  | _ => .error .malformed_packet

/-- `stream.read<uint32_t>()`: consume four bytes, assembled in host order. -/
def read_u32 (hLE : Bool) (s : InputMemoryStream) :
    Except ParseError (Nat × InputMemoryStream) :=
  match s.data with
  | b0 :: b1 :: b2 :: b3 :: rest => .ok (asm32 hLE b0 b1 b2 b3, ⟨rest⟩)
  | _ => .error .malformed_packet

/-- The RSNInformation entity: version, capabilities, group suite and the two
ordered suite lists.  Fields carry the stored (in-memory) integer values of
the C++ members of the same names. -/
structure RSNInformation where
  _version : Nat
  _capabilities : Nat
  _group_suite : Nat
  _pairwise_cyphers : List Nat
  _akm_cyphers : List Nat
  deriving DecidableEq, Repr

/-- Spec-level enumeration code (modelled from the spec: the `CypherSuites`
enumeration lives in rsn_information.h, not under src/; codes 0 to 5 with
CCMP the fifth entry). -/
def CCMP : Nat := 4

/-- Spec-level enumeration code (modelled from the spec: `AKMSuites`, with
EAP = 1 and PSK = 2). -/
def PSK : Nat := 2

/-- Mutator `RSNInformation::version`: stores its argument converted with
`Endian::host_to_le` at mutation time (line 93). -/
def RSNInformation.version (info : RSNInformation) (hLE : Bool) (ver : Nat) :
    RSNInformation :=
  { info with _version := host_to_le16 hLE ver }

/-- Mutator `RSNInformation::capabilities` (line 97): stores
`Endian::host_to_le(cap)`. -/
def RSNInformation.capabilities (info : RSNInformation) (hLE : Bool) (cap : Nat) :
    RSNInformation :=
  { info with _capabilities := host_to_le16 hLE cap }

/-- Mutator `RSNInformation::group_suite` (line 89): stores
`Endian::host_to_le<uint32_t>(group)`. -/
def RSNInformation.group_suite (info : RSNInformation) (hLE : Bool) (group : Nat) :
    RSNInformation :=
  { info with _group_suite := host_to_le32 hLE group }

/-- `RSNInformation::add_pairwise_cypher` (line 81): unconditional
`push_back`, no conversion. -/
def RSNInformation.add_pairwise_cypher (info : RSNInformation) (cypher : Nat) :
    RSNInformation :=
  { info with _pairwise_cyphers := info._pairwise_cyphers ++ [cypher] }

/-- `RSNInformation::add_akm_cypher` (line 85): unconditional `push_back`. -/
def RSNInformation.add_akm_cypher (info : RSNInformation) (akm : Nat) :
    RSNInformation :=
  { info with _akm_cyphers := info._akm_cyphers ++ [akm] }

/-- The default constructor `RSNInformation()` (line 44): `_version(1)`,
`_capabilities(0)`, both lists empty; `_group_suite` is left indeterminate,
which the model makes explicit by taking the junk value as an argument. -/
def RSNInformation.defaultCtor (junk_group : Nat) : RSNInformation :=
  ⟨1, 0, junk_group, [], []⟩

/-- The pairwise while-loop of `RSNInformation::init` (lines 64-68): each
iteration reads a 32-bit word and appends `le_to_host` of it through
`add_pairwise_cypher`. -/
def readPairwiseLoop (hLE : Bool) :
    Nat → RSNInformation → InputMemoryStream →
    Except ParseError (RSNInformation × InputMemoryStream)
  | 0, info, s => .ok (info, s)
  | Nat.succ k, info, s =>
    match read_u32 hLE s with
    | .error e => .error e
    | .ok (v, s') =>
      readPairwiseLoop hLE k (info.add_pairwise_cypher (le_to_host32 hLE v)) s'

/-- The AKM while-loop of `RSNInformation::init` (lines 73-77). -/
def readAkmLoop (hLE : Bool) :
    Nat → RSNInformation → InputMemoryStream →
    Except ParseError (RSNInformation × InputMemoryStream)
  | 0, info, s => .ok (info, s)
  | Nat.succ k, info, s =>
    match read_u32 hLE s with
    | .error e => .error e
    | .ok (v, s') =>
      readAkmLoop hLE k (info.add_akm_cypher (le_to_host32 hLE v)) s'

/-- `RSNInformation::init` (lines 56-79), the parser.  Reads version, group
suite, the pairwise count with its `can_read` guard and loop, the AKM count
with its guard and loop, then capabilities; every field is stored through the
corresponding mutator exactly as in the source.  The object `init` mutates
starts with empty lists (the vectors are default-constructed); the scalar
fields are all overwritten, so their start value 0 is immaterial. -/
def RSNInformation.init (hLE : Bool) (buffer : List Nat) :
    Except ParseError RSNInformation :=
  match read_u16 hLE ⟨buffer⟩ with
  | .error e => .error e
  | .ok (w, s1) =>
    let info := (⟨0, 0, 0, [], []⟩ : RSNInformation).version hLE (le_to_host16 hLE w)
    match read_u32 hLE s1 with
    | .error e => .error e
    | .ok (g, s2) =>
      let info := info.group_suite hLE (le_to_host32 hLE g)
      match read_u16 hLE s2 with
      | .error e => .error e
      | .ok (pc, s3) =>
        let pairwise_cyphers_size := le_to_host16 hLE pc
        if s3.can_read pairwise_cyphers_size then
          match readPairwiseLoop hLE pairwise_cyphers_size info s3 with
          | .error e => .error e
          | .ok (info, s4) =>
            match read_u16 hLE s4 with
            | .error e => .error e
            | .ok (ac, s5) =>
              let akm_cyphers_size := le_to_host16 hLE ac
              if s5.can_read akm_cyphers_size then
                match readAkmLoop hLE akm_cyphers_size info s5 with
                | .error e => .error e
                | .ok (info, s6) =>
                  match read_u16 hLE s6 with
                  | .error e => .error e
                  | .ok (cp, _s7) =>
                    .ok (info.capabilities hLE (le_to_host16 hLE cp))
              else .error .malformed_packet
        else .error .malformed_packet

/-- `RSNInformation::wpa2_psk` (lines 134-140): default-construct, then set
group suite CCMP, one pairwise CCMP, one AKM PSK.  The junk value of the
default constructor's indeterminate `_group_suite` is threaded through. -/
def RSNInformation.wpa2_psk (hLE : Bool) (junk_group : Nat) : RSNInformation :=
  (((RSNInformation.defaultCtor junk_group).group_suite hLE CCMP).add_pairwise_cypher
      CCMP).add_akm_cypher PSK

/-- `RSNInformation::from_option` (lines 142-146).  Modelled from the spec:
the `PDUOption` view (pdu_option.h, not under src/) reduces to its raw data
region, a byte list whose length is `data_size()`. -/
def RSNInformation.from_option (hLE : Bool) (optData : List Nat) :
    Except ParseError RSNInformation :=
  if optData.length < 2 * 2 + 4 then .error .malformed_option
  else RSNInformation.init hLE optData

/-- Overwrite `bs.length` bytes of `buf` starting at offset `off`: the effect
of one `memcpy(ptr, ...)` into the output buffer. -/
def writeBytes (buf : List Nat) (off : Nat) (bs : List Nat) : List Nat :=
  buf.take off ++ bs ++ buf.drop (off + bs.length)

/-- Perform a sequence of writes at consecutive offsets: the advancing-`ptr`
`memcpy` chain of `RSNInformation::serialize`. -/
def writeSeq (buf : List Nat) (off : Nat) : List (List Nat) → List Nat
  | [] => buf
  | bs :: rest => writeSeq (writeBytes buf off bs) (off + bs.length) rest

/-- The size computation of `RSNInformation::serialize` (lines 102-104):
`sizeof(_version) + sizeof(_capabilities) + sizeof(uint32_t)`, plus the two
16-bit counts, plus 4 bytes per list entry. -/
def RSNInformation.serSize (info : RSNInformation) : Nat :=
  2 + 2 + 4 + 2 * 2 +
    4 * (info._akm_cyphers.length + info._pairwise_cyphers.length)

/-- The chunks written by `RSNInformation::serialize` (lines 111-129), in
order: `_version` and `_group_suite` copied verbatim (their stored bytes),
the pairwise count converted with `host_to_le<uint16_t>`, each pairwise entry
converted with `host_to_le<uint32_t>` at write time, the AKM count, each AKM
entry, and `_capabilities` copied verbatim. -/
def RSNInformation.writeList (hLE : Bool) (info : RSNInformation) :
    List (List Nat) :=
  [hostBytes16 hLE info._version,
   hostBytes32 hLE info._group_suite,
   hostBytes16 hLE (host_to_le16 hLE info._pairwise_cyphers.length)]
  ++ info._pairwise_cyphers.map (fun c => hostBytes32 hLE (host_to_le32 hLE c))
  ++ [hostBytes16 hLE (host_to_le16 hLE info._akm_cyphers.length)]
  ++ info._akm_cyphers.map (fun c => hostBytes32 hLE (host_to_le32 hLE c))
  ++ [hostBytes16 hLE info._capabilities]

/-- `RSNInformation::serialize` (lines 101-132): allocate a zero buffer of
the computed size and perform the `memcpy` chain over it. -/
def RSNInformation.serialize (hLE : Bool) (info : RSNInformation) : List Nat :=
  writeSeq (List.replicate info.serSize 0) 0 (info.writeList hLE)

/-- Well-formedness of an entity as constrained by the C++ member types:
`_version` and `_capabilities` are `uint16_t`, `_group_suite` and every list
entry 32-bit wide. -/
def RSNInformation.WF (info : RSNInformation) : Prop :=
  info._version < 65536 ∧ info._capabilities < 65536 ∧
  info._group_suite < 4294967296 ∧
  (∀ c ∈ info._pairwise_cyphers, c < 4294967296) ∧
  (∀ c ∈ info._akm_cyphers, c < 4294967296)

instance (info : RSNInformation) : Decidable info.WF := by
  unfold RSNInformation.WF
  infer_instance

/-- Total length of a chunk list. -/
def chunksLen (ws : List (List Nat)) : Nat := (ws.map List.length).sum

/-- Length of the first `i` chunks: the offset at which chunk `i` is
written. -/
def sumTake (ws : List (List Nat)) (i : Nat) : Nat :=
  ((ws.take i).map List.length).sum

theorem hostBytes16_length (h : Bool) (x : Nat) : (hostBytes16 h x).length = 2 := by
  cases h <;> simp [hostBytes16, leBytes16]

theorem hostBytes32_length (h : Bool) (x : Nat) : (hostBytes32 h x).length = 4 := by
  cases h <;> simp [hostBytes32, leBytes32]

theorem length_writeBytes (buf : List Nat) (off : Nat) (bs : List Nat)
    (h : off + bs.length ≤ buf.length) :
    (writeBytes buf off bs).length = buf.length := by
  simp [writeBytes]
  omega

theorem writeSeq_eq (ws : List (List Nat)) :
    ∀ (buf : List Nat) (off : Nat), off + chunksLen ws ≤ buf.length →
      writeSeq buf off ws =
        buf.take off ++ ws.flatten ++ buf.drop (off + chunksLen ws) := by
  induction ws with
  | nil =>
    intro buf off _
    simp [writeSeq, chunksLen]
  | cons bs rest ih =>
    intro buf off h
    have hlen : chunksLen (bs :: rest) = bs.length + chunksLen rest := by
      simp [chunksLen]
    rw [hlen] at h
    have hoff : off + bs.length ≤ buf.length := by omega
    have hofle : off ≤ buf.length := by omega
    have hbuf : (writeBytes buf off bs).length = buf.length :=
      length_writeBytes _ _ _ hoff
    show writeSeq (writeBytes buf off bs) (off + bs.length) rest = _
    rw [ih (writeBytes buf off bs) (off + bs.length) (by omega)]
    have h1 : (writeBytes buf off bs).take (off + bs.length) = buf.take off ++ bs := by
      unfold writeBytes
      exact List.take_left' (by simp; omega)
    have h2 : (writeBytes buf off bs).drop (off + bs.length + chunksLen rest) =
        buf.drop (off + chunksLen (bs :: rest)) := by
      unfold writeBytes
      have he : off + bs.length + chunksLen rest =
          (buf.take off ++ bs).length + chunksLen rest := by
        simp
        omega
      rw [he, List.drop_append, List.drop_drop]
      congr 1
      rw [hlen]
      omega
    rw [h1, h2, hlen]
    simp [List.append_assoc]

theorem sum_map_len4 (hLE : Bool) (l : List Nat) :
    (l.map fun c => (hostBytes32 hLE (host_to_le32 hLE c)).length).sum = 4 * l.length := by
  induction l with
  | nil => simp
  | cons a l ih =>
    simp [ih, hostBytes32_length]
    ring

theorem chunksLen_writeList (hLE : Bool) (info : RSNInformation) :
    chunksLen (info.writeList hLE) = info.serSize := by
  unfold chunksLen RSNInformation.writeList RSNInformation.serSize
  simp [List.map_map, Function.comp_def, hostBytes16_length, hostBytes32_length,
    sum_map_len4]
  ring

theorem serialize_eq_flatten (hLE : Bool) (info : RSNInformation) :
    info.serialize hLE = (info.writeList hLE).flatten := by
  unfold RSNInformation.serialize
  rw [writeSeq_eq _ _ _ (by simp [chunksLen_writeList])]
  simp [chunksLen_writeList]

theorem bswap16_byte0 (x : Nat) : bswap16 x % 256 = x / 256 % 256 := by
  unfold bswap16
  generalize h1 : x % 256 = a
  generalize h2 : x / 256 % 256 = b
  have ha : a < 256 := by omega
  have hb : b < 256 := by omega
  clear h1 h2
  omega

theorem bswap16_byte1 (x : Nat) : bswap16 x / 256 % 256 = x % 256 := by
  unfold bswap16
  generalize h1 : x % 256 = a
  generalize h2 : x / 256 % 256 = b
  have ha : a < 256 := by omega
  have hb : b < 256 := by omega
  clear h1 h2
  omega

theorem bswap32_byte0 (x : Nat) : bswap32 x % 256 = x / 16777216 % 256 := by
  unfold bswap32
  generalize h1 : x % 256 = a
  generalize h2 : x / 256 % 256 = b
  generalize h3 : x / 65536 % 256 = c
  generalize h4 : x / 16777216 % 256 = d
  have ha : a < 256 := by omega
  have hb : b < 256 := by omega
  have hc : c < 256 := by omega
  have hd : d < 256 := by omega
  clear h1 h2 h3 h4
  omega

theorem bswap32_byte1 (x : Nat) : bswap32 x / 256 % 256 = x / 65536 % 256 := by
  unfold bswap32
  generalize h1 : x % 256 = a
  generalize h2 : x / 256 % 256 = b
  generalize h3 : x / 65536 % 256 = c
  generalize h4 : x / 16777216 % 256 = d
  have ha : a < 256 := by omega
  have hb : b < 256 := by omega
  have hc : c < 256 := by omega
  have hd : d < 256 := by omega
  clear h1 h2 h3 h4
  omega

theorem bswap32_byte2 (x : Nat) : bswap32 x / 65536 % 256 = x / 256 % 256 := by
  unfold bswap32
  generalize h1 : x % 256 = a
  generalize h2 : x / 256 % 256 = b
  generalize h3 : x / 65536 % 256 = c
  generalize h4 : x / 16777216 % 256 = d
  have ha : a < 256 := by omega
  have hb : b < 256 := by omega
  have hc : c < 256 := by omega
  have hd : d < 256 := by omega
  clear h1 h2 h3 h4
  omega

theorem bswap32_byte3 (x : Nat) : bswap32 x / 16777216 % 256 = x % 256 := by
  unfold bswap32
  generalize h1 : x % 256 = a
  generalize h2 : x / 256 % 256 = b
  generalize h3 : x / 65536 % 256 = c
  generalize h4 : x / 16777216 % 256 = d
  have ha : a < 256 := by omega
  have hb : b < 256 := by omega
  have hc : c < 256 := by omega
  have hd : d < 256 := by omega
  clear h1 h2 h3 h4
  omega

theorem hostBytes16_host_to_le (h : Bool) (x : Nat) :
    hostBytes16 h (host_to_le16 h x) = leBytes16 x := by
  cases h
  · simp [hostBytes16, host_to_le16, leBytes16, bswap16_byte0, bswap16_byte1]
  · simp [hostBytes16, host_to_le16, leBytes16]
    omega

theorem hostBytes32_host_to_le (h : Bool) (x : Nat) :
    hostBytes32 h (host_to_le32 h x) = leBytes32 x := by
  cases h
  · simp [hostBytes32, host_to_le32, leBytes32, bswap32_byte0, bswap32_byte1,
      bswap32_byte2, bswap32_byte3]
  · simp [hostBytes32, host_to_le32, leBytes32]
    omega

theorem serialize_flat (hLE : Bool) (info : RSNInformation) :
    info.serialize hLE =
      hostBytes16 hLE info._version ++ hostBytes32 hLE info._group_suite ++
      leBytes16 info._pairwise_cyphers.length ++
      (info._pairwise_cyphers.map leBytes32).flatten ++
      leBytes16 info._akm_cyphers.length ++
      (info._akm_cyphers.map leBytes32).flatten ++
      hostBytes16 hLE info._capabilities := by
  rw [serialize_eq_flatten]
  unfold RSNInformation.writeList
  simp [hostBytes16_host_to_le, hostBytes32_host_to_le, List.append_assoc]

theorem serialize_length (hLE : Bool) (info : RSNInformation) :
    (info.serialize hLE).length =
      12 + 4 * (info._pairwise_cyphers.length + info._akm_cyphers.length) := by
  rw [serialize_eq_flatten, List.length_flatten]
  have h := chunksLen_writeList hLE info
  unfold chunksLen at h
  rw [h]
  unfold RSNInformation.serSize
  omega

theorem bswap16_eq (y : Nat) : bswap16 y = y % 256 * 256 + y / 256 % 256 := rfl

theorem bswap32_eq (y : Nat) : bswap32 y =
    y % 256 * 16777216 + y / 256 % 256 * 65536 + y / 65536 % 256 * 256 +
      y / 16777216 % 256 := rfl

theorem bswap16_bswap16 (x : Nat) (hx : x < 65536) : bswap16 (bswap16 x) = x := by
  rw [bswap16_eq (bswap16 x), bswap16_byte0, bswap16_byte1]
  omega

theorem bswap32_bswap32 (x : Nat) (hx : x < 4294967296) : bswap32 (bswap32 x) = x := by
  rw [bswap32_eq (bswap32 x), bswap32_byte0, bswap32_byte1, bswap32_byte2,
    bswap32_byte3]
  omega

theorem le16_rt (h : Bool) (n : Nat) (hn : n < 65536) :
    le_to_host16 h (asm16 h (n % 256) (n / 256 % 256)) = n := by
  cases h
  · have h1 : asm16 false (n % 256) (n / 256 % 256) = bswap16 n := by
      unfold asm16 bswap16
      simp only [Bool.false_eq_true, if_false]
      omega
    rw [h1]
    show host_to_le16 false (bswap16 n) = n
    unfold host_to_le16
    simp only [Bool.false_eq_true, if_false]
    exact bswap16_bswap16 n hn
  · show le_to_host16 true (asm16 true (n % 256) (n / 256 % 256)) = n
    unfold le_to_host16 host_to_le16 asm16
    simp only [if_true]
    omega

theorem le32_rt (h : Bool) (e : Nat) (he : e < 4294967296) :
    le_to_host32 h (asm32 h (e % 256) (e / 256 % 256) (e / 65536 % 256) (e / 16777216 % 256)) = e := by
  cases h
  · have h1 : asm32 false (e % 256) (e / 256 % 256) (e / 65536 % 256) (e / 16777216 % 256) =
        bswap32 e := by
      unfold asm32 bswap32
      simp only [Bool.false_eq_true, if_false]
      omega
    rw [h1]
    show host_to_le32 false (bswap32 e) = e
    unfold host_to_le32
    simp only [Bool.false_eq_true, if_false]
    exact bswap32_bswap32 e he
  · show le_to_host32 true (asm32 true _ _ _ _) = e
    unfold le_to_host32 host_to_le32 asm32
    simp only [if_true]
    omega

theorem scalar16_rt_true (x : Nat) (hx : x < 65536) :
    host_to_le16 true (le_to_host16 true (asm16 true (x % 256) (x / 256 % 256))) = x := by
  unfold host_to_le16 le_to_host16 host_to_le16 asm16
  simp only [if_true]
  omega

theorem scalar16_rt_false (x : Nat) (hx : x < 65536) :
    host_to_le16 false (le_to_host16 false (asm16 false (x / 256 % 256) (x % 256))) = x := by
  have harg : asm16 false (x / 256 % 256) (x % 256) = x := by
    unfold asm16
    simp only [Bool.false_eq_true, if_false]
    omega
  rw [harg]
  show host_to_le16 false (le_to_host16 false x) = x
  unfold le_to_host16 host_to_le16
  simp only [Bool.false_eq_true, if_false]
  exact bswap16_bswap16 x hx

theorem scalar32_rt_true (x : Nat) (hx : x < 4294967296) :
    host_to_le32 true (le_to_host32 true
      (asm32 true (x % 256) (x / 256 % 256) (x / 65536 % 256) (x / 16777216 % 256))) = x := by
  unfold host_to_le32 le_to_host32 host_to_le32 asm32
  simp only [if_true]
  omega

theorem scalar32_rt_false (x : Nat) (hx : x < 4294967296) :
    host_to_le32 false (le_to_host32 false
      (asm32 false (x / 16777216 % 256) (x / 65536 % 256) (x / 256 % 256) (x % 256))) = x := by
  have harg : asm32 false (x / 16777216 % 256) (x / 65536 % 256) (x / 256 % 256) (x % 256) = x := by
    unfold asm32
    simp only [Bool.false_eq_true, if_false]
    omega
  rw [harg]
  show host_to_le32 false (le_to_host32 false x) = x
  unfold le_to_host32 host_to_le32
  simp only [Bool.false_eq_true, if_false]
  exact bswap32_bswap32 x hx

theorem read_u16_cons (h : Bool) (b0 b1 : Nat) (r : List Nat) :
    read_u16 h ⟨b0 :: b1 :: r⟩ = .ok (asm16 h b0 b1, ⟨r⟩) := rfl

theorem read_u32_cons (h : Bool) (b0 b1 b2 b3 : Nat) (r : List Nat) :
    read_u32 h ⟨b0 :: b1 :: b2 :: b3 :: r⟩ = .ok (asm32 h b0 b1 b2 b3, ⟨r⟩) := rfl

theorem flatten_map_leBytes32_length (l : List Nat) :
    ((l.map leBytes32).flatten).length = 4 * l.length := by
  induction l with
  | nil => simp
  | cons e l ih =>
    simp [leBytes32, ih]
    ring

theorem readPairwiseLoop_flat (hLE : Bool) (p : List Nat) :
    ∀ (info : RSNInformation) (r : List Nat), (∀ c ∈ p, c < 4294967296) →
      readPairwiseLoop hLE p.length info ⟨(p.map leBytes32).flatten ++ r⟩ =
        .ok ({ info with _pairwise_cyphers := info._pairwise_cyphers ++ p }, ⟨r⟩) := by
  induction p with
  | nil =>
    intro info r _
    simp [readPairwiseLoop]
  | cons e p ih =>
    intro info r hp
    have he : e < 4294967296 := hp e (by simp)
    have hdata : ((e :: p).map leBytes32).flatten ++ r =
        e % 256 :: e / 256 % 256 :: e / 65536 % 256 :: e / 16777216 % 256 ::
          ((p.map leBytes32).flatten ++ r) := by
      simp [leBytes32]
    rw [hdata, List.length_cons]
    rw [show readPairwiseLoop hLE (p.length + 1) info
        ⟨e % 256 :: e / 256 % 256 :: e / 65536 % 256 :: e / 16777216 % 256 ::
          ((p.map leBytes32).flatten ++ r)⟩ =
      readPairwiseLoop hLE p.length
        (info.add_pairwise_cypher (le_to_host32 hLE
          (asm32 hLE (e % 256) (e / 256 % 256) (e / 65536 % 256) (e / 16777216 % 256))))
        ⟨(p.map leBytes32).flatten ++ r⟩ from rfl]
    rw [le32_rt hLE e he]
    rw [ih (info.add_pairwise_cypher e) r (fun c hc => hp c (by simp [hc]))]
    simp [RSNInformation.add_pairwise_cypher, List.append_assoc]

theorem readAkmLoop_flat (hLE : Bool) (a : List Nat) :
    ∀ (info : RSNInformation) (r : List Nat), (∀ c ∈ a, c < 4294967296) →
      readAkmLoop hLE a.length info ⟨(a.map leBytes32).flatten ++ r⟩ =
        .ok ({ info with _akm_cyphers := info._akm_cyphers ++ a }, ⟨r⟩) := by
  induction a with
  | nil =>
    intro info r _
    simp [readAkmLoop]
  | cons e a ih =>
    intro info r hp
    have he : e < 4294967296 := hp e (by simp)
    have hdata : ((e :: a).map leBytes32).flatten ++ r =
        e % 256 :: e / 256 % 256 :: e / 65536 % 256 :: e / 16777216 % 256 ::
          ((a.map leBytes32).flatten ++ r) := by
      simp [leBytes32]
    rw [hdata, List.length_cons]
    rw [show readAkmLoop hLE (a.length + 1) info
        ⟨e % 256 :: e / 256 % 256 :: e / 65536 % 256 :: e / 16777216 % 256 ::
          ((a.map leBytes32).flatten ++ r)⟩ =
      readAkmLoop hLE a.length
        (info.add_akm_cypher (le_to_host32 hLE
          (asm32 hLE (e % 256) (e / 256 % 256) (e / 65536 % 256) (e / 16777216 % 256))))
        ⟨(a.map leBytes32).flatten ++ r⟩ from rfl]
    rw [le32_rt hLE e he]
    rw [ih (info.add_akm_cypher e) r (fun c hc => hp c (by simp [hc]))]
    simp [RSNInformation.add_akm_cypher, List.append_assoc]

theorem can_read_append_flat (p : List Nat) (r : List Nat) :
    InputMemoryStream.can_read ⟨(p.map leBytes32).flatten ++ r⟩ p.length = true := by
  simp only [InputMemoryStream.can_read, decide_eq_true_eq, List.length_append,
    flatten_map_leBytes32_length]
  omega

theorem init_flat (hLE : Bool) (V C G : Nat) (p a : List Nat)
    (hV : V < 65536) (hC : C < 65536) (hG : G < 4294967296)
    (hpe : ∀ c ∈ p, c < 4294967296) (hae : ∀ c ∈ a, c < 4294967296)
    (hp : p.length < 65536) (ha : a.length < 65536) :
    RSNInformation.init hLE
      (hostBytes16 hLE V ++ hostBytes32 hLE G ++ leBytes16 p.length ++
        (p.map leBytes32).flatten ++ leBytes16 a.length ++
        (a.map leBytes32).flatten ++ hostBytes16 hLE C) = .ok ⟨V, C, G, p, a⟩ := by
  have hloopP := fun info r => readPairwiseLoop_flat hLE p info r hpe
  have hloopA := fun info r => readAkmLoop_flat hLE a info r hae
  cases hLE
  · simp [RSNInformation.init, read_u16_cons, read_u32_cons,
      hostBytes16, hostBytes32, leBytes16, leBytes32,
      List.cons_append, List.append_assoc,
      le16_rt false p.length hp, le16_rt false a.length ha,
      can_read_append_flat, hloopP, hloopA,
      RSNInformation.version, RSNInformation.group_suite, RSNInformation.capabilities,
      scalar16_rt_false V hV, scalar32_rt_false G hG, scalar16_rt_false C hC]
  · simp [RSNInformation.init, read_u16_cons, read_u32_cons,
      hostBytes16, hostBytes32, leBytes16, leBytes32,
      List.cons_append, List.append_assoc,
      le16_rt true p.length hp, le16_rt true a.length ha,
      can_read_append_flat, hloopP, hloopA,
      RSNInformation.version, RSNInformation.group_suite, RSNInformation.capabilities,
      scalar16_rt_true V hV, scalar32_rt_true G hG, scalar16_rt_true C hC]

theorem read_u16_mono (h : Bool) (d e : List Nat) (v : Nat) (d' : List Nat)
    (hr : read_u16 h ⟨d⟩ = .ok (v, ⟨d'⟩)) :
    read_u16 h ⟨d ++ e⟩ = .ok (v, ⟨d' ++ e⟩) := by
  rcases d with _ | ⟨b0, _ | ⟨b1, rest⟩⟩
  · simp [read_u16] at hr
  · simp [read_u16] at hr
  · rw [read_u16_cons] at hr
    simp only [Except.ok.injEq, Prod.mk.injEq, InputMemoryStream.mk.injEq] at hr
    obtain ⟨hv, hd⟩ := hr
    subst hv
    subst hd
    simp only [List.cons_append]
    rw [read_u16_cons]

theorem read_u32_mono (h : Bool) (d e : List Nat) (v : Nat) (d' : List Nat)
    (hr : read_u32 h ⟨d⟩ = .ok (v, ⟨d'⟩)) :
    read_u32 h ⟨d ++ e⟩ = .ok (v, ⟨d' ++ e⟩) := by
  rcases d with _ | ⟨b0, _ | ⟨b1, _ | ⟨b2, _ | ⟨b3, rest⟩⟩⟩⟩
  · simp [read_u32] at hr
  · simp [read_u32] at hr
  · simp [read_u32] at hr
  · simp [read_u32] at hr
  · rw [read_u32_cons] at hr
    simp only [Except.ok.injEq, Prod.mk.injEq, InputMemoryStream.mk.injEq] at hr
    obtain ⟨hv, hd⟩ := hr
    subst hv
    subst hd
    simp only [List.cons_append]
    rw [read_u32_cons]

theorem can_read_mono (d e : List Nat) (n : Nat)
    (hc : InputMemoryStream.can_read ⟨d⟩ n = true) :
    InputMemoryStream.can_read ⟨d ++ e⟩ n = true := by
  simp [InputMemoryStream.can_read] at hc ⊢
  omega

theorem readPairwiseLoop_mono (h : Bool) (k : Nat) :
    ∀ (info i' : RSNInformation) (d d' e : List Nat),
      readPairwiseLoop h k info ⟨d⟩ = .ok (i', ⟨d'⟩) →
      readPairwiseLoop h k info ⟨d ++ e⟩ = .ok (i', ⟨d' ++ e⟩) := by
  induction k with
  | zero =>
    intro info i' d d' e hr
    simp [readPairwiseLoop] at hr ⊢
    exact ⟨hr.1, hr.2⟩
  | succ k ih =>
    intro info i' d d' e hr
    rcases d with _ | ⟨b0, _ | ⟨b1, _ | ⟨b2, _ | ⟨b3, rest⟩⟩⟩⟩
    · simp [readPairwiseLoop, read_u32] at hr
    · simp [readPairwiseLoop, read_u32] at hr
    · simp [readPairwiseLoop, read_u32] at hr
    · simp [readPairwiseLoop, read_u32] at hr
    · rw [show readPairwiseLoop h (k + 1) info ⟨b0 :: b1 :: b2 :: b3 :: rest⟩ =
          readPairwiseLoop h k
            (info.add_pairwise_cypher (le_to_host32 h (asm32 h b0 b1 b2 b3)))
            ⟨rest⟩ from rfl] at hr
      have hres := ih _ i' rest d' e hr
      simp only [List.cons_append]
      exact hres

theorem readAkmLoop_mono (h : Bool) (k : Nat) :
    ∀ (info i' : RSNInformation) (d d' e : List Nat),
      readAkmLoop h k info ⟨d⟩ = .ok (i', ⟨d'⟩) →
      readAkmLoop h k info ⟨d ++ e⟩ = .ok (i', ⟨d' ++ e⟩) := by
  induction k with
  | zero =>
    intro info i' d d' e hr
    simp [readAkmLoop] at hr ⊢
    exact ⟨hr.1, hr.2⟩
  | succ k ih =>
    intro info i' d d' e hr
    rcases d with _ | ⟨b0, _ | ⟨b1, _ | ⟨b2, _ | ⟨b3, rest⟩⟩⟩⟩
    · simp [readAkmLoop, read_u32] at hr
    · simp [readAkmLoop, read_u32] at hr
    · simp [readAkmLoop, read_u32] at hr
    · simp [readAkmLoop, read_u32] at hr
    · rw [show readAkmLoop h (k + 1) info ⟨b0 :: b1 :: b2 :: b3 :: rest⟩ =
          readAkmLoop h k
            (info.add_akm_cypher (le_to_host32 h (asm32 h b0 b1 b2 b3)))
            ⟨rest⟩ from rfl] at hr
      have hres := ih _ i' rest d' e hr
      simp only [List.cons_append]
      exact hres

theorem read_u16_error (h : Bool) (s : InputMemoryStream) (e : ParseError)
    (hr : read_u16 h s = .error e) : e = .malformed_packet := by
  obtain ⟨d⟩ := s
  rcases d with _ | ⟨b0, _ | ⟨b1, rest⟩⟩
  · simp [read_u16] at hr
    exact hr.symm
  · simp [read_u16] at hr
    exact hr.symm
  · simp [read_u16] at hr

theorem read_u32_error (h : Bool) (s : InputMemoryStream) (e : ParseError)
    (hr : read_u32 h s = .error e) : e = .malformed_packet := by
  obtain ⟨d⟩ := s
  rcases d with _ | ⟨b0, _ | ⟨b1, _ | ⟨b2, _ | ⟨b3, rest⟩⟩⟩⟩
  · simp [read_u32] at hr
    exact hr.symm
  · simp [read_u32] at hr
    exact hr.symm
  · simp [read_u32] at hr
    exact hr.symm
  · simp [read_u32] at hr
    exact hr.symm
  · simp [read_u32] at hr

theorem readPairwiseLoop_error (h : Bool) (k : Nat) :
    ∀ (info : RSNInformation) (s : InputMemoryStream) (e : ParseError),
      readPairwiseLoop h k info s = .error e → e = .malformed_packet := by
  induction k with
  | zero =>
    intro info s e hr
    simp [readPairwiseLoop] at hr
  | succ k ih =>
    intro info s e hr
    unfold readPairwiseLoop at hr
    cases h1 : read_u32 h s with
    | error e1 =>
      rw [h1] at hr
      simp only at hr
      cases hr
      exact read_u32_error h s e h1
    | ok vs =>
      obtain ⟨v, s'⟩ := vs
      rw [h1] at hr
      simp only at hr
      exact ih _ s' e hr

theorem readAkmLoop_error (h : Bool) (k : Nat) :
    ∀ (info : RSNInformation) (s : InputMemoryStream) (e : ParseError),
      readAkmLoop h k info s = .error e → e = .malformed_packet := by
  induction k with
  | zero =>
    intro info s e hr
    simp [readAkmLoop] at hr
  | succ k ih =>
    intro info s e hr
    unfold readAkmLoop at hr
    cases h1 : read_u32 h s with
    | error e1 =>
      rw [h1] at hr
      simp only at hr
      cases hr
      exact read_u32_error h s e h1
    | ok vs =>
      obtain ⟨v, s'⟩ := vs
      rw [h1] at hr
      simp only at hr
      exact ih _ s' e hr

theorem init_mono (h : Bool) (buf extra : List Nat) (res : RSNInformation)
    (hr : RSNInformation.init h buf = .ok res) :
    RSNInformation.init h (buf ++ extra) = .ok res := by
  unfold RSNInformation.init at hr ⊢
  cases h1 : read_u16 h ⟨buf⟩ with
  | error e1 =>
    rw [h1] at hr
    simp at hr
  | ok ws =>
    obtain ⟨w, s1⟩ := ws
    obtain ⟨d1⟩ := s1
    rw [h1] at hr
    rw [read_u16_mono h buf extra w d1 h1]
    simp only at hr ⊢
    cases h2 : read_u32 h ⟨d1⟩ with
    | error e2 =>
      rw [h2] at hr
      simp at hr
    | ok gs =>
      obtain ⟨g, s2⟩ := gs
      obtain ⟨d2⟩ := s2
      rw [h2] at hr
      rw [read_u32_mono h d1 extra g d2 h2]
      simp only at hr ⊢
      cases h3 : read_u16 h ⟨d2⟩ with
      | error e3 =>
        rw [h3] at hr
        simp at hr
      | ok ps =>
        obtain ⟨pc, s3⟩ := ps
        obtain ⟨d3⟩ := s3
        rw [h3] at hr
        rw [read_u16_mono h d2 extra pc d3 h3]
        simp only at hr ⊢
        cases hcr : InputMemoryStream.can_read ⟨d3⟩ (le_to_host16 h pc) with
        | false =>
          rw [hcr] at hr
          simp at hr
        | true =>
          rw [if_pos hcr] at hr
          rw [if_pos (can_read_mono d3 extra _ hcr)]
          cases h4 : readPairwiseLoop h (le_to_host16 h pc)
              (((⟨0, 0, 0, [], []⟩ : RSNInformation).version h
                (le_to_host16 h w)).group_suite h (le_to_host32 h g)) ⟨d3⟩ with
          | error e4 =>
            rw [h4] at hr
            simp at hr
          | ok is4 =>
            obtain ⟨i4, s4⟩ := is4
            obtain ⟨d4⟩ := s4
            rw [h4] at hr
            rw [readPairwiseLoop_mono h _ _ i4 d3 d4 extra h4]
            simp only at hr ⊢
            cases h5 : read_u16 h ⟨d4⟩ with
            | error e5 =>
              rw [h5] at hr
              simp at hr
            | ok as5 =>
              obtain ⟨ac, s5⟩ := as5
              obtain ⟨d5⟩ := s5
              rw [h5] at hr
              rw [read_u16_mono h d4 extra ac d5 h5]
              simp only at hr ⊢
              cases hcr2 : InputMemoryStream.can_read ⟨d5⟩ (le_to_host16 h ac) with
              | false =>
                rw [hcr2] at hr
                simp at hr
              | true =>
                rw [if_pos hcr2] at hr
                rw [if_pos (can_read_mono d5 extra _ hcr2)]
                cases h6 : readAkmLoop h (le_to_host16 h ac) i4 ⟨d5⟩ with
                | error e6 =>
                  rw [h6] at hr
                  simp at hr
                | ok is6 =>
                  obtain ⟨i6, s6⟩ := is6
                  obtain ⟨d6⟩ := s6
                  rw [h6] at hr
                  rw [readAkmLoop_mono h _ _ i6 d5 d6 extra h6]
                  simp only at hr ⊢
                  cases h7 : read_u16 h ⟨d6⟩ with
                  | error e7 =>
                    rw [h7] at hr
                    simp at hr
                  | ok cs7 =>
                    obtain ⟨cp, s7⟩ := cs7
                    obtain ⟨d7⟩ := s7
                    rw [h7] at hr
                    rw [read_u16_mono h d6 extra cp d7 h7]
                    simp only at hr ⊢
                    exact hr

theorem init_error (h : Bool) (buf : List Nat) (e : ParseError)
    (hr : RSNInformation.init h buf = .error e) : e = .malformed_packet := by
  unfold RSNInformation.init at hr
  cases h1 : read_u16 h ⟨buf⟩ with
  | error e1 =>
    rw [h1] at hr
    simp only [Except.error.injEq] at hr
    cases hr
    exact read_u16_error h ⟨buf⟩ e h1
  | ok ws =>
    obtain ⟨w, s1⟩ := ws
    rw [h1] at hr
    simp only at hr
    cases h2 : read_u32 h s1 with
    | error e2 =>
      rw [h2] at hr
      simp only [Except.error.injEq] at hr
      cases hr
      exact read_u32_error h s1 e h2
    | ok gs =>
      obtain ⟨g, s2⟩ := gs
      rw [h2] at hr
      simp only at hr
      cases h3 : read_u16 h s2 with
      | error e3 =>
        rw [h3] at hr
        simp only [Except.error.injEq] at hr
        cases hr
        exact read_u16_error h s2 e h3
      | ok ps =>
        obtain ⟨pc, s3⟩ := ps
        rw [h3] at hr
        simp only at hr
        cases hcr : InputMemoryStream.can_read s3 (le_to_host16 h pc) with
        | false =>
          rw [hcr] at hr
          simp at hr
          exact hr.symm
        | true =>
          rw [if_pos hcr] at hr
          cases h4 : readPairwiseLoop h (le_to_host16 h pc)
              (((⟨0, 0, 0, [], []⟩ : RSNInformation).version h
                (le_to_host16 h w)).group_suite h (le_to_host32 h g)) s3 with
          | error e4 =>
            rw [h4] at hr
            simp only [Except.error.injEq] at hr
            cases hr
            exact readPairwiseLoop_error h _ _ s3 e h4
          | ok is4 =>
            obtain ⟨i4, s4⟩ := is4
            rw [h4] at hr
            simp only at hr
            cases h5 : read_u16 h s4 with
            | error e5 =>
              rw [h5] at hr
              simp only [Except.error.injEq] at hr
              cases hr
              exact read_u16_error h s4 e h5
            | ok as5 =>
              obtain ⟨ac, s5⟩ := as5
              rw [h5] at hr
              simp only at hr
              cases hcr2 : InputMemoryStream.can_read s5 (le_to_host16 h ac) with
              | false =>
                rw [hcr2] at hr
                simp at hr
                exact hr.symm
              | true =>
                rw [if_pos hcr2] at hr
                cases h6 : readAkmLoop h (le_to_host16 h ac) i4 s5 with
                | error e6 =>
                  rw [h6] at hr
                  simp only [Except.error.injEq] at hr
                  cases hr
                  exact readAkmLoop_error h _ _ s5 e h6
                | ok is6 =>
                  obtain ⟨i6, s6⟩ := is6
                  rw [h6] at hr
                  simp only at hr
                  cases h7 : read_u16 h s6 with
                  | error e7 =>
                    rw [h7] at hr
                    simp only [Except.error.injEq] at hr
                    cases hr
                    exact read_u16_error h s6 e h7
                  | ok cs7 =>
                    obtain ⟨cp, s7⟩ := cs7
                    rw [h7] at hr
                    simp at hr

theorem serialize_take2 (hLE : Bool) (info : RSNInformation) :
    (info.serialize hLE).take 2 = hostBytes16 hLE info._version := by
  rw [serialize_flat]
  simp only [List.append_assoc]
  exact List.take_left' (hostBytes16_length hLE info._version)

theorem serialize_drop2 (hLE : Bool) (info : RSNInformation) :
    (info.serialize hLE).drop 2 =
      hostBytes32 hLE info._group_suite ++
        (leBytes16 info._pairwise_cyphers.length ++
          ((info._pairwise_cyphers.map leBytes32).flatten ++
            (leBytes16 info._akm_cyphers.length ++
              ((info._akm_cyphers.map leBytes32).flatten ++
                hostBytes16 hLE info._capabilities)))) := by
  rw [serialize_flat]
  simp only [List.append_assoc]
  exact List.drop_left' (hostBytes16_length hLE info._version)

theorem serialize_drop6 (hLE : Bool) (info : RSNInformation) :
    (info.serialize hLE).drop 6 =
      leBytes16 info._pairwise_cyphers.length ++
        ((info._pairwise_cyphers.map leBytes32).flatten ++
          (leBytes16 info._akm_cyphers.length ++
            ((info._akm_cyphers.map leBytes32).flatten ++
              hostBytes16 hLE info._capabilities))) := by
  rw [show (6 : Nat) = 2 + 4 from rfl, ← List.drop_drop, serialize_drop2]
  exact List.drop_left' (hostBytes32_length hLE info._group_suite)

theorem serialize_drop8 (hLE : Bool) (info : RSNInformation) :
    (info.serialize hLE).drop 8 =
      (info._pairwise_cyphers.map leBytes32).flatten ++
        (leBytes16 info._akm_cyphers.length ++
          ((info._akm_cyphers.map leBytes32).flatten ++
            hostBytes16 hLE info._capabilities)) := by
  rw [show (8 : Nat) = 6 + 2 from rfl, ← List.drop_drop, serialize_drop6]
  exact List.drop_left' (by simp [leBytes16])

theorem serialize_dropEntries (hLE : Bool) (info : RSNInformation) :
    (info.serialize hLE).drop (8 + 4 * info._pairwise_cyphers.length) =
      leBytes16 info._akm_cyphers.length ++
        ((info._akm_cyphers.map leBytes32).flatten ++
          hostBytes16 hLE info._capabilities) := by
  rw [← List.drop_drop, serialize_drop8]
  exact List.drop_left' (flatten_map_leBytes32_length info._pairwise_cyphers)

theorem serialize_dropAkmEntries (hLE : Bool) (info : RSNInformation) :
    (info.serialize hLE).drop (10 + 4 * info._pairwise_cyphers.length) =
      (info._akm_cyphers.map leBytes32).flatten ++
        hostBytes16 hLE info._capabilities := by
  rw [show 10 + 4 * info._pairwise_cyphers.length =
      (8 + 4 * info._pairwise_cyphers.length) + 2 by omega,
    ← List.drop_drop, serialize_dropEntries]
  exact List.drop_left' rfl

theorem serialize_capSlice (hLE : Bool) (info : RSNInformation) :
    (info.serialize hLE).drop
        (10 + 4 * (info._pairwise_cyphers.length + info._akm_cyphers.length)) =
      hostBytes16 hLE info._capabilities := by
  rw [serialize_flat]
  apply List.drop_left'
  simp only [List.length_append, hostBytes16_length, hostBytes32_length,
    flatten_map_leBytes32_length, leBytes16, List.length_cons, List.length_nil]
  omega

theorem sumTake_cons_succ (bs : List Nat) (rest : List (List Nat)) (j : Nat) :
    sumTake (bs :: rest) (j + 1) = bs.length + sumTake rest j := by
  simp [sumTake, List.take_succ_cons]

theorem sumTake_le (ws : List (List Nat)) : ∀ i, sumTake ws i ≤ chunksLen ws := by
  induction ws with
  | nil =>
    intro i
    simp [sumTake, chunksLen]
  | cons bs rest ih =>
    intro i
    cases i with
    | zero =>
      simp [sumTake, chunksLen]
    | succ j =>
      rw [sumTake_cons_succ]
      have hle := ih j
      have hchunks : chunksLen (bs :: rest) = bs.length + chunksLen rest := by
        simp [chunksLen]
      omega

theorem sumTake_succ (ws : List (List Nat)) : ∀ i, i < ws.length →
    sumTake ws (i + 1) = sumTake ws i + (ws.getD i []).length := by
  induction ws with
  | nil =>
    intro i hi
    simp at hi
  | cons bs rest ih =>
    intro i hi
    cases i with
    | zero =>
      simp [sumTake_cons_succ, sumTake]
    | succ j =>
      have hj : j < rest.length := by simpa using hi
      rw [sumTake_cons_succ, sumTake_cons_succ, ih j hj, List.getD_cons_succ]
      omega

theorem sumTake_full (ws : List (List Nat)) : sumTake ws ws.length = chunksLen ws := by
  simp [sumTake, chunksLen, List.take_length]

theorem writeList_getLast (hLE : Bool) (info : RSNInformation) :
    (info.writeList hLE).getLast? = some (hostBytes16 hLE info._capabilities) := by
  unfold RSNInformation.writeList
  exact List.getLast?_concat _

theorem leBytes16_length (x : Nat) : (leBytes16 x).length = 2 := rfl

theorem leBytes16_mod (n : Nat) : leBytes16 (n % 65536) = leBytes16 n := by
  simp only [leBytes16, List.cons.injEq, and_true]
  exact ⟨by omega, by omega⟩


/-- Claim C1: for every RSNInformation (well formed as forced by the C++
member types) whose pairwise-cipher list and AKM list each have at most 65535
entries, parsing the bytes produced by serialize yields an entity equal to
the original in every field: version, group_suite, capabilities, and both
lists with identical contents and order. -/
theorem claim_C1_roundtrip (hLE : Bool) (info : RSNInformation) (hWF : info.WF)
    (hp : info._pairwise_cyphers.length ≤ 65535)
    (ha : info._akm_cyphers.length ≤ 65535) :
    RSNInformation.init hLE (info.serialize hLE) = .ok info := by
  obtain ⟨V, C, G, p, a⟩ := info
  obtain ⟨hV, hC, hG, hpe, hae⟩ := hWF
  rw [serialize_flat]
  exact init_flat hLE V C G p a hV hC hG hpe hae (by simp at hp ⊢; omega)
    (by simp at ha ⊢; omega)

/-- Witness for C1 at a concrete entity (the canonical WPA2-PSK field
values). -/
theorem claim_C1_roundtrip_witness :
    RSNInformation.init true
        ((⟨1, 0, 4, [4], [2]⟩ : RSNInformation).serialize true) =
      .ok ⟨1, 0, 4, [4], [2]⟩ :=
  claim_C1_roundtrip true ⟨1, 0, 4, [4], [2]⟩ (by decide) (by decide) (by decide)

/-- Claim C2 (code bug): the spec says that after reading a 16-bit list
count k the parser checks once, before consuming the list, that the stream
can supply k further 32-bit entries.  At the failing input
00 00 00 00 00 00 01 00 AA (pairwise count 1, a single byte remaining) the
code's upfront check, `stream.can_read(pairwise_cyphers_size)` at line 61
- k bytes, not 4k - passes, even though fewer than 4 x 1 bytes remain, so
the rejection only happens inside the per-entry 32-bit read; the overall
result is still MalformedPacket. -/
theorem claim_C2_bounds_check :
    InputMemoryStream.can_read ⟨[170]⟩ 1 = true ∧
    ([170] : List Nat).length < 4 * 1 ∧
    RSNInformation.init true [0, 0, 0, 0, 0, 0, 1, 0, 170] =
      .error .malformed_packet := by
  decide

/-- Claim C3 counterexample: the claim says from_option on an option of size
8 with all-zero payload succeeds; in the code the parse of 8 bytes runs out
of data at the AKM count read and raises MalformedPacket instead. -/
theorem claim_C3_counterexample :
    RSNInformation.from_option true [0, 0, 0, 0, 0, 0, 0, 0] =
      .error .malformed_packet := by
  decide

/-- Claim C3 (amended): from_option on an option of size 7 raises
MalformedOption; on a size-8 all-zero payload it raises MalformedPacket
(the parser finds no bytes left at the AKM count); the minimal all-zero
payload that succeeds is 12 bytes, yielding version=0, group_suite=0, empty
lists, capabilities=0. -/
theorem claim_C3_amended (hLE : Bool) :
    RSNInformation.from_option hLE (List.replicate 7 0) =
      .error .malformed_option ∧
    RSNInformation.from_option hLE (List.replicate 8 0) =
      .error .malformed_packet ∧
    RSNInformation.from_option hLE (List.replicate 12 0) =
      .ok ⟨0, 0, 0, [], []⟩ := by
  cases hLE
  · exact ⟨by decide, by decide, by decide⟩
  · exact ⟨by decide, by decide, by decide⟩

/-- Claim C4: for every RSNInformation, serialize always succeeds (it is a
total function of the entity) and the length of its output buffer equals
exactly 12 + 4 x (length of pairwise_cyphers + length of akm_cyphers) bytes,
never over-allocated. -/
theorem claim_C4_exact_size (hLE : Bool) (info : RSNInformation) :
    (info.serialize hLE).length =
      12 + 4 * (info._pairwise_cyphers.length + info._akm_cyphers.length) :=
  serialize_length hLE info

/-- Claim C5: wpa2_psk() returns an entity with version=1, group_suite=CCMP,
pairwise_cyphers=[CCMP], akm_cyphers=[PSK], capabilities=0, and on a
little-endian host serializing it produces exactly version 01 00, the CCMP
code in 4 little-endian bytes, pairwise count 01 00, one CCMP code, AKM
count 01 00, one PSK code, capabilities 00 00 - 20 bytes in total.  The
indeterminate group-suite junk of the default constructor is overwritten,
so the result holds for every junk value. -/
theorem claim_C5_wpa2_psk (junk_group : Nat) :
    RSNInformation.wpa2_psk true junk_group = ⟨1, 0, CCMP, [CCMP], [PSK]⟩ ∧
    RSNInformation.serialize true (RSNInformation.wpa2_psk true junk_group) =
      [1, 0, 4, 0, 0, 0, 1, 0, 4, 0, 0, 0, 1, 0, 2, 0, 0, 0, 0, 0] := by
  have h1 : RSNInformation.wpa2_psk true junk_group =
      ⟨1, 0, CCMP, [CCMP], [PSK]⟩ := rfl
  refine ⟨h1, ?_⟩
  rw [h1]
  decide

/-- Claim C6: from_option fails with MalformedOption exactly when the
supplied option's data size is smaller than 8 bytes (for larger options any
failure is MalformedPacket, never MalformedOption), and for every option of
size at least 8 it delegates to the parser over the option's data region. -/
theorem claim_C6_from_option (hLE : Bool) (optData : List Nat) :
    (RSNInformation.from_option hLE optData = .error .malformed_option ↔
      optData.length < 8) ∧
    (8 ≤ optData.length →
      RSNInformation.from_option hLE optData =
        RSNInformation.init hLE optData) := by
  constructor
  · constructor
    · intro hfo
      by_contra hlen
      unfold RSNInformation.from_option at hfo
      rw [if_neg (by omega)] at hfo
      exact absurd (init_error hLE optData _ hfo) (by decide)
    · intro hlen
      unfold RSNInformation.from_option
      rw [if_pos (by omega)]
  · intro hlen
    unfold RSNInformation.from_option
    rw [if_neg (by omega)]

/-- Witness for C6 at a concrete 8-byte option: the factory delegates to the
parser. -/
theorem claim_C6_from_option_witness :
    8 ≤ ([0, 0, 0, 0, 0, 0, 0, 0] : List Nat).length ∧
    RSNInformation.from_option true [0, 0, 0, 0, 0, 0, 0, 0] =
      RSNInformation.init true [0, 0, 0, 0, 0, 0, 0, 0] :=
  ⟨by decide, (claim_C6_from_option true [0, 0, 0, 0, 0, 0, 0, 0]).2 (by decide)⟩

/-- Claim C7: for every buffer that parses successfully, appending any extra
trailing bytes leaves parsing successful with the same resulting entity: the
parser never looks past the capabilities field. -/
theorem claim_C7_trailing (hLE : Bool) (buf extra : List Nat)
    (info : RSNInformation) (h : RSNInformation.init hLE buf = .ok info) :
    RSNInformation.init hLE (buf ++ extra) = .ok info :=
  init_mono hLE buf extra info h

/-- Witness for C7: a 12-byte all-zero element followed by three junk
bytes parses to the same entity as the element alone. -/
theorem claim_C7_trailing_witness :
    RSNInformation.init true
        ([0, 0, 0, 0, 0, 0, 0, 0, 0, 0, 0, 0] ++ [1, 2, 3]) =
      .ok ⟨0, 0, 0, [], []⟩ :=
  claim_C7_trailing true [0, 0, 0, 0, 0, 0, 0, 0, 0, 0, 0, 0] [1, 2, 3]
    ⟨0, 0, 0, [], []⟩ (by decide)

/-- Claim C8 counterexample: the claim says the program rejects or
explicitly truncates a pairwise list exceeding 65535 entries; in the code
the 65536th add_pairwise_cypher succeeds, and serializing an entity with
65536 pairwise entries emits a wrapped count field 00 00 while still
writing all 65536 entries (output 12 + 4 x 65536 bytes): the 16-bit count
wraps silently. -/
theorem claim_C8_counterexample :
    ((⟨1, 0, 0, List.replicate 65535 0, []⟩ :
        RSNInformation).add_pairwise_cypher 0)._pairwise_cyphers.length =
      65536 ∧
    (((⟨1, 0, 0, List.replicate 65536 0, []⟩ :
        RSNInformation).serialize true).drop 6).take 2 = [0, 0] ∧
    ((⟨1, 0, 0, List.replicate 65536 0, []⟩ :
        RSNInformation).serialize true).length = 12 + 4 * 65536 := by
  refine ⟨?_, ?_, ?_⟩
  · show (List.replicate 65535 (0 : Nat) ++ [0]).length = 65536
    rw [List.length_append, List.length_replicate]
    rfl
  · calc (((⟨1, 0, 0, List.replicate 65536 0, []⟩ :
          RSNInformation).serialize true).drop 6).take 2
        = leBytes16 (List.replicate 65536 (0 : Nat)).length := by
          rw [serialize_drop6]
          exact List.take_left' rfl
      _ = [0, 0] := by
          rw [List.length_replicate]
          decide
  · have hp : ((⟨1, 0, 0, List.replicate 65536 0, []⟩ :
        RSNInformation))._pairwise_cyphers.length = 65536 := by
      rw [show ((⟨1, 0, 0, List.replicate 65536 0, []⟩ :
          RSNInformation))._pairwise_cyphers = List.replicate 65536 (0 : Nat) from rfl,
        List.length_replicate]
    have ha : ((⟨1, 0, 0, List.replicate 65536 0, []⟩ :
        RSNInformation))._akm_cyphers.length = 0 := rfl
    rw [serialize_length, hp, ha]

/-- Claim C8 (amended): the adders never fail - add_pairwise_cypher and
add_akm_cypher append unconditionally - and the serializer encodes each
count field as the list length reduced modulo 65536 (the 16-bit field wraps
silently) while still emitting every entry; oversized lists are neither
rejected nor truncated. -/
theorem claim_C8_amended (hLE : Bool) (info : RSNInformation) (c : Nat) :
    ((info.add_pairwise_cypher c)._pairwise_cyphers =
      info._pairwise_cyphers ++ [c]) ∧
    ((info.add_akm_cypher c)._akm_cyphers = info._akm_cyphers ++ [c]) ∧
    (((info.serialize hLE).drop 6).take 2 =
      leBytes16 (info._pairwise_cyphers.length % 65536)) ∧
    (((info.serialize hLE).drop (8 + 4 * info._pairwise_cyphers.length)).take 2 =
      leBytes16 (info._akm_cyphers.length % 65536)) ∧
    ((info.serialize hLE).length =
      12 + 4 * (info._pairwise_cyphers.length + info._akm_cyphers.length)) := by
  refine ⟨rfl, rfl, ?_, ?_, serialize_length hLE info⟩
  · rw [serialize_drop6, leBytes16_mod]
    exact List.take_left' rfl
  · rw [serialize_dropEntries, leBytes16_mod]
    exact List.take_left' rfl

/-- Claim C9: the group_suite mutator (and likewise version and
capabilities) stores its argument pre-converted to little-endian byte order
at mutation time, so serialize copies those scalar fields verbatim (their
output bytes are the raw memory bytes of the stored values), whereas
pairwise and AKM list entries are stored unconverted and byte-swapped to
little-endian only at serialization time; the mutator equations hold for
every entity, hence after every operation. -/
theorem claim_C9_storage_convention (hLE : Bool) (info : RSNInformation)
    (v g c e : Nat) :
    ((info.version hLE v)._version = host_to_le16 hLE v) ∧
    ((info.capabilities hLE c)._capabilities = host_to_le16 hLE c) ∧
    ((info.group_suite hLE g)._group_suite = host_to_le32 hLE g) ∧
    ((info.add_pairwise_cypher e)._pairwise_cyphers =
      info._pairwise_cyphers ++ [e]) ∧
    ((info.add_akm_cypher e)._akm_cyphers = info._akm_cyphers ++ [e]) ∧
    ((info.serialize hLE).take 2 = hostBytes16 hLE info._version) ∧
    (((info.serialize hLE).drop 2).take 4 = hostBytes32 hLE info._group_suite) ∧
    ((info.serialize hLE).drop
        (10 + 4 * (info._pairwise_cyphers.length + info._akm_cyphers.length)) =
      hostBytes16 hLE info._capabilities) ∧
    (((info.serialize hLE).drop 8).take (4 * info._pairwise_cyphers.length) =
      (info._pairwise_cyphers.map
        (fun x => hostBytes32 hLE (host_to_le32 hLE x))).flatten) ∧
    (((info.serialize hLE).drop
          (10 + 4 * info._pairwise_cyphers.length)).take
        (4 * info._akm_cyphers.length) =
      (info._akm_cyphers.map
        (fun x => hostBytes32 hLE (host_to_le32 hLE x))).flatten) := by
  refine ⟨rfl, rfl, rfl, rfl, rfl, serialize_take2 hLE info, ?_,
    serialize_capSlice hLE info, ?_, ?_⟩
  · rw [serialize_drop2]
    exact List.take_left' (hostBytes32_length hLE info._group_suite)
  · rw [serialize_drop8]
    have hmap : info._pairwise_cyphers.map
        (fun x => hostBytes32 hLE (host_to_le32 hLE x)) =
        info._pairwise_cyphers.map leBytes32 :=
      List.map_congr_left (fun x _ => hostBytes32_host_to_le hLE x)
    rw [hmap]
    exact List.take_left' (flatten_map_leBytes32_length info._pairwise_cyphers)
  · rw [serialize_dropAkmEntries]
    have hmap : info._akm_cyphers.map
        (fun x => hostBytes32 hLE (host_to_le32 hLE x)) =
        info._akm_cyphers.map leBytes32 :=
      List.map_congr_left (fun x _ => hostBytes32_host_to_le hLE x)
    rw [hmap]
    exact List.take_left' (flatten_map_leBytes32_length info._akm_cyphers)

/-- Claim C10: serialize allocates a buffer of exactly the computed size,
every write of the advancing-pointer memcpy chain lands inside that
allocation (the offset of each chunk plus its length stays within the
size), the writes tile the buffer exactly (their total length is the size,
so no allocated byte is left unwritten and the output is precisely the
concatenation of the writes), and the final write is the 2-byte
capabilities chunk, ending exactly at the buffer's last byte. -/
theorem claim_C10_writes_in_bounds (hLE : Bool) (info : RSNInformation)
    (i : Nat) (hi : i < (info.writeList hLE).length) :
    (sumTake (info.writeList hLE) i +
        ((info.writeList hLE).getD i []).length ≤ info.serSize) ∧
    (sumTake (info.writeList hLE) (info.writeList hLE).length = info.serSize) ∧
    ((info.serialize hLE).length = info.serSize) ∧
    (info.serialize hLE = (info.writeList hLE).flatten) ∧
    ((info.writeList hLE).getLast? =
      some (hostBytes16 hLE info._capabilities)) := by
  refine ⟨?_, ?_, ?_, serialize_eq_flatten hLE info, writeList_getLast hLE info⟩
  · rw [← sumTake_succ _ i hi]
    calc sumTake (info.writeList hLE) (i + 1)
        ≤ chunksLen (info.writeList hLE) := sumTake_le _ _
      _ = info.serSize := chunksLen_writeList hLE info
  · rw [sumTake_full]
    exact chunksLen_writeList hLE info
  · rw [serialize_length]
    unfold RSNInformation.serSize
    omega

/-- Witness for C10 at a concrete entity and chunk index. -/
theorem claim_C10_writes_in_bounds_witness :
    0 < (((⟨1, 0, 4, [4], [2]⟩ : RSNInformation)).writeList true).length ∧
    ((sumTake (((⟨1, 0, 4, [4], [2]⟩ : RSNInformation)).writeList true) 0 +
        ((((⟨1, 0, 4, [4], [2]⟩ : RSNInformation)).writeList true).getD 0 []).length ≤
        (⟨1, 0, 4, [4], [2]⟩ : RSNInformation).serSize) ∧
      (sumTake (((⟨1, 0, 4, [4], [2]⟩ : RSNInformation)).writeList true)
          (((⟨1, 0, 4, [4], [2]⟩ : RSNInformation)).writeList true).length =
        (⟨1, 0, 4, [4], [2]⟩ : RSNInformation).serSize) ∧
      (((⟨1, 0, 4, [4], [2]⟩ : RSNInformation).serialize true).length =
        (⟨1, 0, 4, [4], [2]⟩ : RSNInformation).serSize) ∧
      ((⟨1, 0, 4, [4], [2]⟩ : RSNInformation).serialize true =
        (((⟨1, 0, 4, [4], [2]⟩ : RSNInformation)).writeList true).flatten) ∧
      ((((⟨1, 0, 4, [4], [2]⟩ : RSNInformation)).writeList true).getLast? =
        some (hostBytes16 true
          (⟨1, 0, 4, [4], [2]⟩ : RSNInformation)._capabilities))) :=
  ⟨by decide, claim_C10_writes_in_bounds true ⟨1, 0, 4, [4], [2]⟩ 0 (by decide)⟩
